import Mathlib

/-!
Verification of the sbalance usage-aggregation core (src/sbalance/slurm.py and
src/sbalance/fields.py) against its design specification.

Modelling conventions:
* Python `str` values are Lean `String`s; the string primitives the code uses
  (`split`, `split(sep, 1)`, `strip`, `replace`, `index`, slicing, `int(...)`)
  are embedded as total functions over `List Char` below, matching CPython
  semantics on the code points involved.
* Python `float` arithmetic is embedded as exact rational arithmetic (`ℚ`);
  Python `int` as `ℤ`.
* Python `dict`s (insertion ordered, later assignment overwrites in place) are
  embedded as association lists with `getAssoc`/`setAssoc`.
* Fallible Python code (exceptions `KeyError`, `ValueError`, `IndexError`,
  `NameError`, `ZeroDivisionError`, `TypeError`) is embedded in
  `Except String`; the error string names the exception class raised.
-/

/-! ## Python string primitives -/

/-- `s.split(c)` for a one-character separator: keeps empty fields, and the
split of the empty string is `[""]`. -/
def splitOnChar (c : Char) : List Char → List (List Char)
  | [] => [[]]
  | x :: xs =>
    let r := splitOnChar c xs
    if x = c then [] :: r
    else
      match r with
      | [] => [[x]]
      | g :: gs => (x :: g) :: gs

def pySplit (s : String) (c : Char) : List String :=
  (splitOnChar c s.toList).map List.asString

/-- `s.split(c, 1)`: the part before the first separator, and (when the
separator occurs) the remainder after it. -/
def breakAtChar (c : Char) : List Char → List Char × Option (List Char)
  | [] => ([], none)
  | x :: xs =>
    if x = c then ([], some xs)
    else
      let r := breakAtChar c xs
      (x :: r.1, r.2)

def pySplit1 (s : String) (c : Char) : String × Option String :=
  let r := breakAtChar c s.toList
  (r.1.asString, r.2.map List.asString)

/-- `s.strip()`. -/
def pyStrip (s : String) : String :=
  ((s.toList.dropWhile Char.isWhitespace).reverse.dropWhile Char.isWhitespace).reverse.asString

/-- `s.replace(c, '')`: remove every occurrence of the character. -/
def removeChar (s : String) (c : Char) : String :=
  (s.toList.filter (fun x => x ≠ c)).asString

/-- `s[:n]` (character slicing). -/
def strTake (s : String) (n : ℕ) : String :=
  (s.toList.take n).asString

/-- `s.index(c)`: position of the first occurrence, `ValueError` if absent. -/
def pyIndexChar (s : String) (c : Char) : Except String ℕ :=
  match s.toList.findIdx? (fun x => x = c) with
  | some i => .ok i
  | none => .error "ValueError"

/-- `lst.index(x)` for a list of strings: `ValueError` if absent. -/
def pyIndexList (l : List String) (x : String) : Except String ℕ :=
  match l.findIdx? (fun y => y = x) with
  | some i => .ok i
  | none => .error "ValueError"

/-- `lst[i]`: `IndexError` when out of range. -/
def pyListGet {α : Type} (l : List α) (i : ℕ) : Except String α :=
  match l.get? i with
  | some a => .ok a
  | none => .error "IndexError"

def digitsVal (l : List Char) : ℕ :=
  l.foldl (fun n c => n * 10 + (c.toNat - 48)) 0

/-- `int(s)`: optional surrounding whitespace, optional sign, non-empty digit
string; `ValueError` otherwise. -/
def pyInt (s : String) : Except String ℤ :=
  let l := (pyStrip s).toList
  let p : ℤ × List Char :=
    match l with
    | '-' :: rest => (-1, rest)
    | '+' :: rest => (1, rest)
    | _ => (1, l)
  if p.2 ≠ [] ∧ p.2.all Char.isDigit then .ok (p.1 * digitsVal p.2)
  else .error "ValueError"

/-- Python float/int division: raises `ZeroDivisionError` on a zero divisor. -/
def pyDiv (a b : ℚ) : Except String ℚ :=
  if b = 0 then .error "ZeroDivisionError" else .ok (a / b)

/-- Referencing a local variable that was never assigned raises `NameError`. -/
def resolveName {α : Type} : Option α → Except String α
  | some a => .ok a
  | none => .error "NameError"

/-! ## Python dicts as insertion-ordered association lists -/

def getAssoc {β : Type} : List (String × β) → String → Option β
  | [], _ => none
  | (k, v) :: rest, key => if k = key then some v else getAssoc rest key

/-- `d[k] = v`: overwrite in place if the key exists, else append. -/
def setAssoc {β : Type} : List (String × β) → String → β → List (String × β)
  | [], key, v => [(key, v)]
  | (k, w) :: rest, key, v =>
    if k = key then (k, v) :: rest else (k, w) :: setAssoc rest key v

/-- `d[k]` read access: `KeyError` when absent. -/
def dictGet {β : Type} (d : List (String × β)) (k : String) : Except String β :=
  match getAssoc d k with
  | some v => .ok v
  | none => .error "KeyError"

/-! ## Monadic list helpers (structural, for easy inversion lemmas) -/

def mapME {α β : Type} (f : α → Except String β) : List α → Except String (List β)
  | [] => .ok []
  | x :: xs =>
    match f x with
    | .error e => .error e
    | .ok y =>
      match mapME f xs with
      | .error e => .error e
      | .ok ys => .ok (y :: ys)

def foldlME {α β : Type} (f : β → α → Except String β) : β → List α → Except String β
  | b, [] => .ok b
  | b, x :: xs =>
    match f b x with
    | .error e => .error e
    | .ok b1 => foldlME f b1 xs

/-! ## Stable sort (Python `list.sort`), as insertion sort -/

def insertS {α : Type} (le : α → α → Bool) (x : α) : List α → List α
  | [] => [x]
  | y :: ys => if le x y then x :: y :: ys else y :: insertS le x ys

def insSort {α : Type} (le : α → α → Bool) : List α → List α
  | [] => []
  | x :: xs => insertS le x (insSort le xs)

/-! ## Data model (src/sbalance/slurm.py) -/

/-- Module constant `SU_UNLIMITED = 'unlimited'`. -/
def SU_UNLIMITED : String := "unlimited"

/-- Module constant `SERVICE_HOUR_FACTOR = 7680.0`. -/
def SERVICE_HOUR_FACTOR : ℚ := 7680

/-- Module constant `SACCTMGR_QOS_NODECAY_FLAG = 'NoDecay'`. -/
def SACCTMGR_QOS_NODECAY_FLAG : String := "NoDecay"

structure PartitionConfig where
  name : String
  factor : ℚ
deriving DecidableEq

/-- Module constant `PARTITION_CONFIGS` (name and divisor of each partition
profile). -/
def PARTITION_CONFIGS : List PartitionConfig :=
  [⟨"compute", 128 * 1 * 60⟩, ⟨"gpu", 4 * 96 * 60⟩, ⟨"memory", 128 * 4 * 60⟩]

/-- A value stored in a parsed TRES dict: `int(v)` for the `billing` key,
the raw string otherwise. -/
inductive TresVal where
  | int (n : ℤ)
  | str (s : String)
deriving DecidableEq

/-- One row of `sacctmgr show qos -P` CSV output as read by `csv.DictReader`
(header `Name|GrpTRESMins|Flags|Descr`). -/
structure QosRawRow where
  Name : String
  GrpTRESMins : String
  Flags : String
  Descr : String
deriving DecidableEq

/-- The value stored per QoS by `Slurm.get_qos`: the row with `GrpTRESMins`
replaced by the parsed resource dict. -/
structure QosEntry where
  name : String
  grpTresMins : List (String × TresVal)
  flags : String
  descr : String
deriving DecidableEq

/-- One row of `sacct -aXP` CSV output; only the fields `Slurm.get_detail_usage`
reads are kept (`JobID`, `State`, `Partition` are never accessed). -/
structure SacctRow where
  User : String
  Account : String
  QOS : String
  AllocTRES : String
  ElapsedRaw : String
deriving DecidableEq

/-- A per-user accumulator entry of `get_detail_usage`
(`{'user': ..., 'account': ..., 'billing': ...}`). -/
structure UserEntry where
  user : String
  account : String
  billing : ℚ
deriving DecidableEq

/-- `get_detail_usage`'s nested dict: QoS name -> user name -> entry. -/
abbrev DetailUsage := List (String × List (String × UserEntry))

/-- A `GrpTRESMins` limit parsed from `scontrol` output: the string `'N'` or
an integer. -/
inductive Limit where
  | N
  | num (n : ℤ)
deriving DecidableEq

/-- `{'limit': ..., 'used': ...}` for one TRES key of a `scontrol` QOS record. -/
structure TresEntry where
  limit : Limit
  used : ℤ
deriving DecidableEq

abbrev GrpTres := List (String × TresEntry)

/-- The loop-carried locals of the `scontrol` record loop in `get_usage`:
`qos_name` and `grp_tres_min` persist from one iteration to the next, so a
record whose `QOS` (resp. `GrpTRESMins`) field is empty silently reuses the
previous record's value, and a reference before any assignment is a
`NameError`. -/
structure LineState where
  qos_name : Option String
  grp_tres : Option GrpTres
deriving DecidableEq

/-- A dynamically-typed Python value in a usage row: an int, a float, or a
sentinel string (`'unlimited'` / `'-'`). -/
inductive PyVal where
  | int (n : ℤ)
  | float (q : ℚ)
  | str (s : String)
deriving DecidableEq

/-- The three per-partition fields `su_used_<p>`, `su_alloc_<p>`,
`su_remaining_<p>` produced by the `PARTITION_CONFIGS` loop. -/
structure PartUsage where
  name : String
  su_used : ℚ
  su_alloc : PyVal
  su_remaining : PyVal
deriving DecidableEq

/-- A per-user output row (`detail_usage[qos][user]` after `get_usage` adds
`su_used`, `sh_used`, `percent_used`). -/
structure UserUsage where
  user : String
  account : String
  billing : ℚ
  su_used : ℤ
  sh_used : ℚ
  percent_used : ℚ
deriving DecidableEq

/-- One `qos_usage` dict produced per `scontrol` QOS record by `get_usage`.
`users` is `none` when `use_sacct` is off (the key is never added). -/
structure QosUsage where
  account : String
  description : String
  su_used : ℤ
  sh_used : ℚ
  su_alloc : PyVal
  su_remaining : PyVal
  percent_used : PyVal
  percent_remaining : PyVal
  partitions : List PartUsage
  sh_alloc : PyVal
  sh_remaining : PyVal
  users : Option (List UserUsage)
deriving DecidableEq

/-! ## TRES string parsing shared by get_qos and get_detail_usage
(slurm.py lines 54-62 and 105-113: split on `,`, then on `=`; entries
without exactly one `=` are skipped; the `billing` value goes through
`int(...)`). -/

def parseTresPairs (s : String) : Except String (List (String × TresVal)) :=
  foldlME
    (fun acc res =>
      match pySplit res '=' with
      | [k, v] =>
        if k = "billing" then
          match pyInt v with
          | .error e => .error e
          | .ok n => .ok (setAssoc acc k (TresVal.int n))
        else .ok (setAssoc acc k (TresVal.str v))
      | _ => .ok acc)
    [] (pySplit s ',')

/-! ## Slurm.get_qos (slurm.py lines 39-67)

The external `sacctmgr` call is the injected collaborator; its parsed CSV
rows are the function's input.  A row is kept only when its `Flags` field
**equals** `'NoDecay'` (`row['Flags'] == SACCTMGR_QOS_NODECAY_FLAG`). -/

def qosStep (qos : List (String × QosEntry)) (row : QosRawRow) :
    Except String (List (String × QosEntry)) :=
  if row.Flags = SACCTMGR_QOS_NODECAY_FLAG then
    match parseTresPairs row.GrpTRESMins with
    | .error e => .error e
    | .ok res => .ok (setAssoc qos row.Name ⟨row.Name, res, row.Flags, row.Descr⟩)
  else .ok qos

def get_qos (rows : List QosRawRow) : Except String (List (String × QosEntry)) :=
  foldlME qosStep [] rows

/-! ## Slurm.get_detail_usage (slurm.py lines 90-127)

Input: the parsed `sacct` CSV rows (the `qos` parameter only restricts the
external command line, so it does not appear here).  Builds the nested
per-QoS per-user billing accumulator; `billing` for a job is
`AllocTRES['billing'] * ElapsedRaw / 60.0`. -/

def detailStep (usage_dict : DetailUsage) (row : SacctRow) : Except String DetailUsage :=
  match parseTresPairs row.AllocTRES with
  | .error e => .error e
  | .ok allocTres =>
    match pyInt row.ElapsedRaw with
    | .error e => .error e
    | .ok elapsed =>
      if elapsed > 0 then
        match getAssoc allocTres "billing" with
        | some (.int b) =>
          let billing : ℚ := (b : ℚ) * (elapsed : ℚ) / 60
          let qosUsers := (getAssoc usage_dict row.QOS).getD []
          let entry := (getAssoc qosUsers row.User).getD ⟨row.User, row.Account, 0⟩
          let entry1 : UserEntry := { entry with billing := entry.billing + billing }
          .ok (setAssoc usage_dict row.QOS (setAssoc qosUsers row.User entry1))
        | some (.str _) => .error "TypeError"
        | none => .ok usage_dict
      else .ok usage_dict

def get_detail_usage (rows : List SacctRow) : Except String DetailUsage :=
  foldlME detailStep [] rows

/-- `math.ceil(reduce(lambda val, k: val + detail[qos][k]['billing'], detail[qos], 0))`
(slurm.py line 186): total billing of one QoS, summed in the dict's
insertion order, then ceiled. -/
def detailTotal (users : List (String × UserEntry)) : ℤ :=
  ⌈users.foldl (fun v ku => v + ku.2.billing) (0 : ℚ)⌉

/-! ## Slurm.get_usage (slurm.py lines 129-234)

Inputs are the texts of the three external collaborators that contribute
data: the `sacctmgr show qos` rows (through `get_qos`), the `sacct` rows
(through `get_detail_usage`, only when `use_sacct`), and the raw
`scontrol show assoc` output.  `get_default_qos` only selects the QoS names
placed on the external command lines and contributes no data to the returned
rows, so its input is not modelled.  The unused `per_user` parameter of the
Python signature is dropped. -/

/-- `scontrol` `GrpTRESMins=` field parsing (slurm.py lines 176-179):
`billing=123(45),cpu=N(67),...` becomes a dict of `{'limit','used'}` entries;
`'N'` is the unlimited limit. -/
def parseGrpTresMins (s : String) : Except String GrpTres :=
  match
    mapME
      (fun x => do
        let k ← pyListGet x 0
        let v ← pyListGet x 1
        .ok (k, v))
      ((pySplit s ',').map (fun x => pySplit x '='))
  with
  | .error e => .error e
  | .ok pairs =>
    let d := pairs.foldl (fun acc kv => setAssoc acc kv.1 kv.2) ([] : List (String × String))
    mapME
      (fun kv => do
        let vs := pySplit (removeChar kv.2 ')') '('
        let v0 ← pyListGet vs 0
        let lim ←
          if v0 = "N" then .ok Limit.N
          else do
            let n ← pyInt v0
            .ok (Limit.num n)
        let v1 ← pyListGet vs 1
        let used ← pyInt v1
        .ok (kv.1, TresEntry.mk lim used))
      d

/-- One record line of the `scontrol` output (slurm.py lines 162-179): split
on single spaces, keep the fields before the literal `Account` entry, read
them as `key=value` pairs, and update the loop-carried `qos_name` /
`grp_tres_min` locals when the `QOS` / `GrpTRESMins` fields are non-empty. -/
def parseRecordLine (st : LineState) (line : String) : Except String LineState := do
  let record := pySplit line ' '
  let account_idx ← pyIndexList record "Account"
  let qos_configs := record.take account_idx
  let configs := qos_configs.foldl
    (fun acc x =>
      let p := pySplit1 x '='
      setAssoc acc p.1 (p.2.getD "")) []
  let qosV ← dictGet configs "QOS"
  let st1 ←
    if qosV ≠ "" then do
      let qos_idx ← pyIndexChar qosV '('
      .ok { st with qos_name := some (strTake qosV qos_idx) }
    else .ok st
  let grpV ← dictGet configs "GrpTRESMins"
  if grpV ≠ "" then do
    let g ← parseGrpTresMins grpV
    .ok { st1 with grp_tres := some g }
  else .ok st1

/-- slurm.py lines 181-186: when `use_sacct`, overwrite
`grp_tres_min['billing']['used']` in place with the (ceiled) total billing
of the QoS from the detailed usage, or `0` when the QoS has no usage. -/
def sacctUpdate (detail : Option DetailUsage) (st : LineState) : Except String LineState :=
  match detail with
  | none => .ok st
  | some du => do
    let qn ← resolveName st.qos_name
    let grp ← resolveName st.grp_tres
    let bEntry ← dictGet grp "billing"
    let newUsed : ℤ :=
      match getAssoc du qn with
      | none => 0
      | some users => detailTotal users
    .ok { st with grp_tres := some (setAssoc grp "billing" { bEntry with used := newUsed }) }

/-- The `qos_usage` dict of the unlimited branch (slurm.py lines 195-205):
built when `grp_tres_min['billing']['limit'] == 'N'`. -/
def unlimitedRow (name descr : String) (su : ℤ) : QosUsage where
  account := name
  description := descr
  su_used := su
  sh_used := (su : ℚ) / SERVICE_HOUR_FACTOR
  su_alloc := .str SU_UNLIMITED
  su_remaining := .str "-"
  percent_used := .str "-"
  percent_remaining := .str "-"
  partitions := PARTITION_CONFIGS.map fun p =>
    ⟨p.name, (su : ℚ) / p.factor, .str SU_UNLIMITED, .str "-"⟩
  sh_alloc := .str SU_UNLIMITED
  sh_remaining := .str "-"
  users := none

/-- The `qos_usage` dict of the numeric branch (slurm.py lines 206-216),
given the already-computed `percent_used` ratio. -/
def numericRow (name descr : String) (su L : ℤ) (pu : ℚ) : QosUsage where
  account := name
  description := descr
  su_used := su
  sh_used := (su : ℚ) / SERVICE_HOUR_FACTOR
  su_alloc := .int L
  su_remaining := .int (L - su)
  percent_used := .float pu
  percent_remaining := .float (1 - pu)
  partitions := PARTITION_CONFIGS.map fun p =>
    ⟨p.name, (su : ℚ) / p.factor, .float ((L : ℚ) / p.factor),
      .float (((L - su : ℤ) : ℚ) / p.factor)⟩
  sh_alloc := .float ((L : ℚ) / SERVICE_HOUR_FACTOR)
  sh_remaining := .float (((L - su : ℤ) : ℚ) / SERVICE_HOUR_FACTOR)
  users := none

/-- slurm.py lines 188-216: build the `qos_usage` dict for one record.  Only
the `'N'` sentinel guards the `used/limit` ratio; a numeric limit goes
straight to the division. -/
def buildRow (name descr : String) (lim : Limit) (su : ℤ) : Except String QosUsage :=
  match lim with
  | .N => .ok (unlimitedRow name descr su)
  | .num L =>
    match pyDiv (su : ℚ) (L : ℚ) with
    | .error e => .error e
    | .ok pu => .ok (numericRow name descr su L pu)

/-- slurm.py lines 218-226: when `use_sacct`, decorate each per-user entry of
the QoS with `su_used = ceil(billing)`, `sh_used`, and
`percent_used = su_used / total`, then sort descending by the raw billing.
`total` is the (already overwritten) `grp_tres_min['billing']['used']`.
Returns `none` when `use_sacct` is off: the `users` key is never created. -/
def mkUsers (detail : Option DetailUsage) (qos_name : String) (total : ℤ) :
    Except String (Option (List UserUsage)) :=
  match detail with
  | none => .ok none
  | some du =>
    match getAssoc du qos_name with
    | none => .ok (some [])
    | some dus =>
      match
        mapME
          (fun ku => do
            let suU : ℤ := ⌈ku.2.billing⌉
            let pU ← pyDiv (suU : ℚ) (total : ℚ)
            .ok ({ user := ku.2.user, account := ku.2.account, billing := ku.2.billing,
                   su_used := suU, sh_used := (suU : ℚ) / SERVICE_HOUR_FACTOR,
                   percent_used := pU } : UserUsage))
          dus
      with
      | .error e => .error e
      | .ok us => .ok (some (insSort (fun a b => decide (b.billing ≤ a.billing)) us))

/-- One iteration of the record loop of `get_usage` (slurm.py lines 162-228):
parse the line into the loop state, apply the `use_sacct` overwrite, then
build the output row (`description` comes from the `get_qos` map, a missing
QoS being a `KeyError`). -/
def processLine (qm : List (String × QosEntry)) (detail : Option DetailUsage)
    (st : LineState) (line : String) : Except String (LineState × QosUsage) := do
  let st1 ← parseRecordLine st line
  let st2 ← sacctUpdate detail st1
  let qos_name ← resolveName st2.qos_name
  let qEntry ← dictGet qm qos_name
  let grp ← resolveName st2.grp_tres
  let bEntry ← dictGet grp "billing"
  let r0 ← buildRow qos_name qEntry.descr bEntry.limit bEntry.used
  let users ← mkUsers detail qos_name bEntry.used
  .ok (st2, { r0 with users := users })

/-- The record loop, threading the loop-carried state and collecting the
rows in input order. -/
def processAll (qm : List (String × QosEntry)) (detail : Option DetailUsage) :
    LineState → List String → Except String (List QosUsage)
  | _, [] => .ok []
  | st, l :: ls =>
    match processLine qm detail st l with
    | .error e => .error e
    | .ok (st1, row) =>
      match processAll qm detail st1 ls with
      | .error e => .error e
      | .ok rest => .ok (row :: rest)

/-- slurm.py lines 139-141: the detailed usage is fetched only when
`use_sacct` is set. -/
def getDetailOpt (sacctRows : List SacctRow) (use_sacct : Bool) :
    Except String (Option DetailUsage) :=
  if use_sacct then
    match get_detail_usage sacctRows with
    | .error e => .error e
    | .ok du => .ok (some du)
  else .ok none

/-- `Slurm.get_usage`.  The result distinguishes the bare `return` taken when
the `QOS Records` section is empty (`.ok none`, Python `None`) from a
returned list (`.ok (some rows)`). -/
def get_usage (qosRows : List QosRawRow) (sacctRows : List SacctRow)
    (scontrolRaw : String) (use_sacct : Bool) :
    Except String (Option (List QosUsage)) := do
  let qm ← get_qos qosRows
  let detail ← getDetailOpt sacctRows use_sacct
  let lines := pySplit (pyStrip scontrolRaw) '\n'
  let usage_qos_idx ← pyIndexList lines "QOS Records"
  let usage_qos_raw := lines.drop (usage_qos_idx + 1)
  if usage_qos_raw.length < 1 then
    .ok none
  else do
    let usage ← processAll qm detail ⟨none, none⟩ usage_qos_raw
    .ok (some (insSort (fun a b => decide (a.account ≤ b.account)) usage))

/-! ## Field registry (src/sbalance/fields.py) -/

/-- A `FieldConfig` entry: lookup key is the dict key of `FIELD_CONFIGS`;
`field` is the source key in a usage row; `str_disp` / `field_disp` are the
format templates before the `% size` width interpolation. -/
structure FieldConfig where
  field : String
  header : String
  topic : Option String
  size : ℕ
  str_disp : String
  field_disp : String
deriving DecidableEq

/-- The `FIELD_CONFIGS` registry (fields.py lines 19-47), key to entry.
`\x7b`/`\x7d` are the literal braces of the Python format templates. -/
def FIELD_CONFIGS : List (String × FieldConfig) :=
  [("account", ⟨"account", "Account", none, 10, "\x7b:<%d\x7d", "\x7b:<%d\x7d"⟩),
   ("description", ⟨"description", "Descr", none, 7, "\x7b:<%d\x7d", "\x7b:<%d\x7d"⟩),
   ("allocation", ⟨"sh_alloc", "Allocation(SHr)", some "Service Hour", 16, "\x7b:>%d\x7d", "\x7b:>%d.2f\x7d"⟩),
   ("remaining", ⟨"sh_remaining", "Remaining(SHr)", some "Service Hour", 16, "\x7b:>%d\x7d", "\x7b:>%d.2f\x7d"⟩),
   ("used", ⟨"sh_used", "Used(SHr)", some "Service Hour", 16, "\x7b:>%d\x7d", "\x7b:>%d.2f\x7d"⟩),
   ("allocation_system", ⟨"su_alloc", "Allocation(SU)", some "Service Unit", 14, "\x7b:>%d\x7d", "\x7b:>%d.0f\x7d"⟩),
   ("remaining_system", ⟨"su_remaining", "Remaining(SU)", some "Service Unit", 12, "\x7b:>%d\x7d", "\x7b:>%d.0f\x7d"⟩),
   ("used_system", ⟨"su_used", "Used(SU)", some "Service Unit", 12, "\x7b:>%d\x7d", "\x7b:>%d.0f\x7d"⟩),
   ("used_percent", ⟨"percent_used", "Used(%)", none, 12, "\x7b:>%d\x7d", "\x7b:>%d.2%%\x7d"⟩),
   ("remaining_percent", ⟨"percent_remaining", "Remaining(%)", none, 12, "\x7b:>%d\x7d", "\x7b:>%d.2%%\x7d"⟩),
   ("allocation_compute", ⟨"su_alloc_compute", "Alloc(Node-Hr)", some "Compute (Estimated)", 16, "\x7b:>%d\x7d", "\x7b:>%d.2f\x7d"⟩),
   ("remaining_compute", ⟨"su_remaining_compute", "Remain(Node-Hr)", some "Compute (Estimated)", 16, "\x7b:>%d\x7d", "\x7b:>%d.2f\x7d"⟩),
   ("used_compute", ⟨"su_used_compute", "Used(Node-Hr)", some "Compute (Estimated)", 16, "\x7b:>%d\x7d", "\x7b:>%d.2f\x7d"⟩),
   ("allocation_gpu", ⟨"su_alloc_gpu", "Alloc(Node-Hr)", some "GPU (Estimated)", 16, "\x7b:>%d\x7d", "\x7b:>%d.2f\x7d"⟩),
   ("remaining_gpu", ⟨"su_remaining_gpu", "Remain(Node-Hr)", some "GPU (Estimated)", 16, "\x7b:>%d\x7d", "\x7b:>%d.2f\x7d"⟩),
   ("used_gpu", ⟨"su_used_gpu", "Used(Node-Hr)", some "GPU (Estimated)", 16, "\x7b:>%d\x7d", "\x7b:>%d.2f\x7d"⟩),
   ("allocation_memory", ⟨"su_alloc_memory", "Allocation(Hr)", some "Memory (Estimated)", 16, "\x7b:>%d\x7d", "\x7b:>%d.2f\x7d"⟩),
   ("remaining_memory", ⟨"su_remaining_memory", "Remaining(Hr)", some "Memory (Estimated)", 16, "\x7b:>%d\x7d", "\x7b:>%d.2f\x7d"⟩),
   ("used_memory", ⟨"su_used_memory", "Used(Hr)", some "Memory (Estimated)", 16, "\x7b:>%d\x7d", "\x7b:>%d.2f\x7d"⟩)]

/-- Modelled from the spec: `lookup(key) -> FieldSpec`, fails with
`UnknownField` when the key is absent from the registry.  The repository
defines the `FIELD_CONFIGS` registry but contains no renderer revision that
performs the lookup, so the lookup operation itself follows the spec's
contract (`FIELD_CONFIGS[key]`, a missing key being the fatal error). -/
def lookupField (k : String) : Except String FieldConfig :=
  match getAssoc FIELD_CONFIGS k with
  | some c => .ok c
  | none => .error "UnknownField"

/-- Modelled from the spec: the display operation resolves every requested
field key in the registry before emitting any text, so an unknown key fails
the whole operation with `UnknownField` and no output is produced. -/
def displayFields (keys : List String) : Except String (List FieldConfig) :=
  mapME lookupField keys

/-! ## Totals of the per-user accumulator (for the order-invariance property) -/

/-- Sum of the accumulated billing of one QoS's user dict. -/
def usersSum (users : List (String × UserEntry)) : ℚ :=
  (users.map (fun ku => ku.2.billing)).sum

/-- Total accumulated billing of one QoS in a `get_detail_usage` result. -/
def qosTotal (d : DetailUsage) (q : String) : ℚ :=
  match getAssoc d q with
  | none => 0
  | some users => usersSum users

/-- The billing one raw `sacct` record contributes to QoS `q` (0 when the
record is filtered out or belongs to another QoS). -/
def rowContribQ (q : String) (row : SacctRow) : ℚ :=
  match parseTresPairs row.AllocTRES, pyInt row.ElapsedRaw with
  | .ok allocTres, .ok elapsed =>
    if elapsed > 0 then
      match getAssoc allocTres "billing" with
      | some (.int b) => if row.QOS = q then (b : ℚ) * (elapsed : ℚ) / 60 else 0
      | _ => 0
    else 0
  | _, _ => 0

/-! ## Concrete scenario inputs and expected outputs (used by witnesses) -/

/-- An account with an unlimited (`N`) allocation and 5 SU used. -/
def wQosU : List QosRawRow := [⟨"u1", "", "NoDecay", "d"⟩]

def wRawU : String := "QOS Records\nQOS=u1(1) GrpTRESMins=billing=N(5) Account"

def wRowU : QosUsage :=
  ⟨"u1", "d", 5, 5/7680, .str "unlimited", .str "-", .str "-", .str "-",
   [⟨"compute", 5/7680, .str "unlimited", .str "-"⟩,
    ⟨"gpu", 5/23040, .str "unlimited", .str "-"⟩,
    ⟨"memory", 5/30720, .str "unlimited", .str "-"⟩],
   .str "unlimited", .str "-", none⟩

/-- Two numeric accounts, listed out of order in the raw text. -/
def wQosS : List QosRawRow :=
  [⟨"a", "billing=200", "NoDecay", "da"⟩, ⟨"b", "billing=100", "NoDecay", "db"⟩]

def wRawS : String :=
  "QOS Records\nQOS=b(1) GrpTRESMins=billing=100(10) Account\nQOS=a(1) GrpTRESMins=billing=200(20) Account"

def wRowA : QosUsage :=
  ⟨"a", "da", 20, 20/7680, .int 200, .int 180, .float (20/200), .float (180/200),
   [⟨"compute", 20/7680, .float (200/7680), .float (180/7680)⟩,
    ⟨"gpu", 20/23040, .float (200/23040), .float (180/23040)⟩,
    ⟨"memory", 20/30720, .float (200/30720), .float (180/30720)⟩],
   .float (200/7680), .float (180/7680), none⟩

def wRowB : QosUsage :=
  ⟨"b", "db", 10, 10/7680, .int 100, .int 90, .float (10/100), .float (90/100),
   [⟨"compute", 10/7680, .float (100/7680), .float (90/7680)⟩,
    ⟨"gpu", 10/23040, .float (100/23040), .float (90/23040)⟩,
    ⟨"memory", 10/30720, .float (100/30720), .float (90/30720)⟩],
   .float (100/7680), .float (90/7680), none⟩

/-- Detail (per-user) mode: QoS `C` with raw billings 300.4 (alice) and
100.1 (bob); jobs report `billing=2` over 9012 resp. 3003 elapsed seconds. -/
def wQosC : List QosRawRow := [⟨"C", "billing=1000", "NoDecay", "descr"⟩]

def wSacctC : List SacctRow :=
  [⟨"alice", "C", "C", "billing=2", "9012"⟩, ⟨"bob", "C", "C", "billing=2", "3003"⟩]

def wRawC : String := "QOS Records\nQOS=C(1) GrpTRESMins=billing=1000(0) Account"

def wAlice : UserUsage := ⟨"alice", "C", 1502/5, 301, 301/7680, 301/401⟩

def wBob : UserUsage := ⟨"bob", "C", 1001/10, 101, 101/7680, 101/401⟩

def wRowC : QosUsage :=
  ⟨"C", "descr", 401, 401/7680, .int 1000, .int 599, .float (401/1000), .float (599/1000),
   [⟨"compute", 401/7680, .float (1000/7680), .float (599/7680)⟩,
    ⟨"gpu", 401/23040, .float (1000/23040), .float (599/23040)⟩,
    ⟨"memory", 401/30720, .float (1000/30720), .float (599/30720)⟩],
   .float (1000/7680), .float (599/7680), some [wAlice, wBob]⟩

deriving instance DecidableEq for Except

/-! ## General lemmas: `Except` binds, sorting, association lists -/

theorem exceptBind_ok {ε α β : Type} (a : α) (f : α → Except ε β) :
    (Except.ok a >>= f) = f a := rfl

theorem exceptBind_error {ε α β : Type} (e : ε) (f : α → Except ε β) :
    ((Except.error e : Except ε α) >>= f) = Except.error e := rfl

theorem exceptBind_ok_inv {ε α β : Type} {e : Except ε α} {f : α → Except ε β} {b : β}
    (h : (e >>= f) = .ok b) : ∃ a, e = .ok a ∧ f a = .ok b := by
  cases e with
  | error e => rw [exceptBind_error] at h; exact absurd h (by simp)
  | ok a => exact ⟨a, rfl, h⟩

theorem mem_insertS {α : Type} {le : α → α → Bool} {x a : α} {l : List α} :
    a ∈ insertS le x l ↔ a = x ∨ a ∈ l := by
  induction l with
  | nil => simp [insertS]
  | cons y ys ih =>
    rw [insertS]
    split
    · simp [List.mem_cons]
    · simp only [List.mem_cons, ih]
      tauto

theorem mem_insSort {α : Type} {le : α → α → Bool} {a : α} {l : List α} :
    a ∈ insSort le l ↔ a ∈ l := by
  induction l with
  | nil => simp [insSort]
  | cons x xs ih => rw [insSort]; simp [mem_insertS, ih]

theorem pairwise_insertS {α : Type} {le : α → α → Bool}
    (htot : ∀ a b, le a b = true ∨ le b a = true)
    (htrans : ∀ a b c, le a b = true → le b c = true → le a c = true)
    {x : α} {l : List α} (hl : l.Pairwise (fun a b => le a b = true)) :
    (insertS le x l).Pairwise (fun a b => le a b = true) := by
  induction l with
  | nil => simp [insertS]
  | cons y ys ih =>
    rw [List.pairwise_cons] at hl
    obtain ⟨hy, hys⟩ := hl
    rw [insertS]
    split
    · rename_i hxy
      rw [List.pairwise_cons]
      refine ⟨?_, List.pairwise_cons.mpr ⟨hy, hys⟩⟩
      intro b hb
      rcases List.mem_cons.mp hb with rfl | hb
      · exact hxy
      · exact htrans _ _ _ hxy (hy _ hb)
    · rename_i hnxy
      have hyx : le y x = true := (htot x y).resolve_left hnxy
      rw [List.pairwise_cons]
      refine ⟨?_, ih hys⟩
      intro b hb
      rcases mem_insertS.mp hb with rfl | hb
      · exact hyx
      · exact hy _ hb

theorem pairwise_insSort {α : Type} {le : α → α → Bool}
    (htot : ∀ a b, le a b = true ∨ le b a = true)
    (htrans : ∀ a b c, le a b = true → le b c = true → le a c = true)
    (l : List α) :
    (insSort le l).Pairwise (fun a b => le a b = true) := by
  induction l with
  | nil => simp [insSort]
  | cons x xs ih => rw [insSort]; exact pairwise_insertS htot htrans ih

theorem getAssoc_set_eq {β : Type} (d : List (String × β)) (k : String) (v : β) :
    getAssoc (setAssoc d k v) k = some v := by
  induction d with
  | nil => simp [setAssoc, getAssoc]
  | cons kv rest ih =>
    obtain ⟨k1, v1⟩ := kv
    rw [setAssoc]
    split
    · rename_i h; rw [getAssoc, if_pos h]
    · rename_i h; rw [getAssoc, if_neg h]; exact ih

theorem getAssoc_set_ne {β : Type} (d : List (String × β)) (k k1 : String) (v : β)
    (h : k1 ≠ k) : getAssoc (setAssoc d k v) k1 = getAssoc d k1 := by
  have hk : ¬ (k = k1) := fun hk => h hk.symm
  induction d with
  | nil =>
    simp only [setAssoc, getAssoc, if_neg hk]
  | cons kv rest ih =>
    obtain ⟨k2, v2⟩ := kv
    rw [setAssoc]
    split
    · rename_i h2
      subst h2
      simp only [getAssoc, if_neg hk]
    · simp only [getAssoc]
      split
      · rfl
      · exact ih

theorem usersSum_set_add (users : List (String × UserEntry)) (u : String) (b : ℚ)
    (init : UserEntry) (hinit : init.billing = 0) :
    usersSum (setAssoc users u
      { ((getAssoc users u).getD init) with
          billing := ((getAssoc users u).getD init).billing + b })
      = usersSum users + b := by
  induction users with
  | nil =>
    simp [usersSum, setAssoc, getAssoc, hinit]
  | cons kv rest ih =>
    obtain ⟨k1, v1⟩ := kv
    by_cases h : k1 = u
    · subst h
      simp only [getAssoc, if_pos rfl, setAssoc, Option.getD_some]
      simp [usersSum]
      ring
    · simp only [getAssoc, if_neg h, setAssoc, if_neg h]
      simp only [usersSum, List.map_cons, List.sum_cons] at ih ⊢
      rw [ih]
      ring

theorem qosTotal_detailStep (d d1 : DetailUsage) (row : SacctRow)
    (h : detailStep d row = .ok d1) (q : String) :
    qosTotal d1 q = qosTotal d q + rowContribQ q row := by
  rw [detailStep] at h
  rw [rowContribQ]
  cases hp : parseTresPairs row.AllocTRES with
  | error e => simp [hp] at h
  | ok allocTres =>
    cases he : pyInt row.ElapsedRaw with
    | error e => simp [hp, he] at h
    | ok elapsed =>
      simp only [hp, he] at h ⊢
      by_cases hpos : elapsed > 0
      · rw [if_pos hpos] at h ⊢
        cases hb : getAssoc allocTres "billing" with
        | none =>
          rw [hb] at h
          simp only [Except.ok.injEq] at h
          subst h
          simp
        | some tv =>
          rw [hb] at h
          cases tv with
          | str s => simp at h
          | int b =>
            simp only [Except.ok.injEq] at h
            subst h
            show _ = qosTotal d q + (if row.QOS = q then (b : ℚ) * (elapsed : ℚ) / 60 else 0)
            by_cases hq : q = row.QOS
            · subst hq
              rw [if_pos rfl, qosTotal, getAssoc_set_eq, qosTotal]
              cases hqu : getAssoc d row.QOS with
              | none =>
                simp only [hqu, Option.getD_none]
                rw [usersSum_set_add _ _ _ ⟨row.User, row.Account, 0⟩ rfl]
                simp [usersSum]
              | some users =>
                simp only [hqu, Option.getD_some]
                rw [usersSum_set_add _ _ _ ⟨row.User, row.Account, 0⟩ rfl]
            · rw [if_neg (fun hh => hq hh.symm), qosTotal,
                getAssoc_set_ne _ _ _ _ hq, add_zero, qosTotal]
      · rw [if_neg hpos] at h ⊢
        simp only [Except.ok.injEq] at h
        subst h
        simp

theorem qosTotal_foldlME (rows : List SacctRow) (acc d : DetailUsage)
    (h : foldlME detailStep acc rows = .ok d) (q : String) :
    qosTotal d q = qosTotal acc q + (rows.map (rowContribQ q)).sum := by
  induction rows generalizing acc with
  | nil =>
    rw [foldlME] at h
    simp only [Except.ok.injEq] at h
    subst h
    simp
  | cons row rest ih =>
    rw [foldlME] at h
    cases hs : detailStep acc row with
    | error e => rw [hs] at h; exact absurd h (by simp)
    | ok acc1 =>
      rw [hs] at h
      rw [ih acc1 h, qosTotal_detailStep acc acc1 row hs q]
      simp only [List.map_cons, List.sum_cons]
      ring

/-! ## Inversion lemmas for the get_usage pipeline -/

theorem pyDiv_ok {a b q : ℚ} (h : pyDiv a b = .ok q) : b ≠ 0 ∧ q = a / b := by
  rw [pyDiv] at h
  by_cases hz : b = 0
  · rw [if_pos hz] at h; exact absurd h (by simp)
  · rw [if_neg hz] at h
    simp only [Except.ok.injEq] at h
    exact ⟨hz, h.symm⟩

theorem buildRow_ok_cases {name descr : String} {lim : Limit} {su : ℤ} {r0 : QosUsage}
    (h : buildRow name descr lim su = .ok r0) :
    (lim = .N ∧ r0 = unlimitedRow name descr su) ∨
    (∃ L, lim = .num L ∧ (L : ℚ) ≠ 0 ∧
      r0 = numericRow name descr su L ((su : ℚ) / (L : ℚ))) := by
  cases lim with
  | N =>
    rw [buildRow] at h
    simp only [Except.ok.injEq] at h
    exact Or.inl ⟨rfl, h.symm⟩
  | num L =>
    rw [buildRow] at h
    cases hd : pyDiv (su : ℚ) (L : ℚ) with
    | error e => simp [hd] at h
    | ok pu =>
      simp only [hd, Except.ok.injEq] at h
      obtain ⟨hz, hpu⟩ := pyDiv_ok hd
      subst hpu
      exact Or.inr ⟨L, rfl, hz, h.symm⟩

theorem mapME_ok_mem {α β : Type} {f : α → Except String β} {l : List α} {out : List β}
    (h : mapME f l = .ok out) : ∀ b ∈ out, ∃ a ∈ l, f a = .ok b := by
  induction l generalizing out with
  | nil =>
    rw [mapME] at h
    simp only [Except.ok.injEq] at h
    subst h
    simp
  | cons x xs ih =>
    rw [mapME] at h
    cases hx : f x with
    | error e => rw [hx] at h; exact absurd h (by simp)
    | ok y =>
      rw [hx] at h
      cases hxs : mapME f xs with
      | error e => rw [hxs] at h; exact absurd h (by simp)
      | ok ys =>
        rw [hxs] at h
        simp only [Except.ok.injEq] at h
        subst h
        intro b hb
        rcases List.mem_cons.mp hb with rfl | hb
        · exact ⟨x, List.mem_cons_self .., hx⟩
        · obtain ⟨a, ha, hfa⟩ := ih hxs b hb
          exact ⟨a, List.mem_cons_of_mem _ ha, hfa⟩

theorem mkUsers_some {detail : Option DetailUsage} {qn : String} {total : ℤ}
    {us : List UserUsage} (h : mkUsers detail qn total = .ok (some us)) :
    us.Pairwise (fun a b => decide (b.billing ≤ a.billing) = true) ∧
    ∀ u ∈ us, u.su_used = ⌈u.billing⌉ ∧ (total : ℚ) ≠ 0 ∧
      u.percent_used = (u.su_used : ℚ) / (total : ℚ) ∧
      u.sh_used = (u.su_used : ℚ) / SERVICE_HOUR_FACTOR := by
  cases detail with
  | none => rw [mkUsers] at h; exact absurd h (by simp)
  | some du =>
    rw [mkUsers] at h
    cases hq : getAssoc du qn with
    | none =>
      simp only [hq, Except.ok.injEq, Option.some.injEq] at h
      subst h
      simp
    | some dus =>
      simp only [hq] at h
      cases hm : mapME (fun ku => do
          let suU : ℤ := ⌈ku.2.billing⌉
          let pU ← pyDiv (suU : ℚ) (total : ℚ)
          .ok ({ user := ku.2.user, account := ku.2.account, billing := ku.2.billing,
                 su_used := suU, sh_used := (suU : ℚ) / SERVICE_HOUR_FACTOR,
                 percent_used := pU } : UserUsage)) dus with
      | error e => simp [hm] at h
      | ok base =>
        simp only [hm, Except.ok.injEq, Option.some.injEq] at h
        subst h
        constructor
        · refine pairwise_insSort ?_ ?_ base
          · intro a b
            rcases le_total b.billing a.billing with hab | hab
            · exact Or.inl (by simpa using hab)
            · exact Or.inr (by simpa using hab)
          · intro a b c hab hbc
            simp only [decide_eq_true_eq] at hab hbc ⊢
            exact le_trans hbc hab
        · intro u hu
          have hu1 : u ∈ base := mem_insSort.mp hu
          obtain ⟨ku, _, hk⟩ := mapME_ok_mem hm u hu1
          obtain ⟨pU, hdiv, hk⟩ := exceptBind_ok_inv hk
          simp only [Except.ok.injEq] at hk
          obtain ⟨hz, hpu⟩ := pyDiv_ok hdiv
          subst hk
          subst hpu
          exact ⟨rfl, hz, rfl, rfl⟩

theorem processAll_mem {qm : List (String × QosEntry)} {detail : Option DetailUsage}
    {st : LineState} {ls : List String} {out : List QosUsage}
    (h : processAll qm detail st ls = .ok out) {r : QosUsage} (hr : r ∈ out) :
    ∃ st1 l stOut, l ∈ ls ∧ processLine qm detail st1 l = .ok (stOut, r) := by
  induction ls generalizing st out with
  | nil =>
    rw [processAll] at h
    simp only [Except.ok.injEq] at h
    subst h
    exact absurd hr (by simp)
  | cons l ls ih =>
    rw [processAll] at h
    cases hl : processLine qm detail st l with
    | error e => rw [hl] at h; exact absurd h (by simp)
    | ok p =>
      obtain ⟨st1, row⟩ := p
      simp only [hl] at h
      cases hrest : processAll qm detail st1 ls with
      | error e => simp [hrest] at h
      | ok rest =>
        simp only [hrest, Except.ok.injEq] at h
        subst h
        rcases List.mem_cons.mp hr with rfl | hr
        · exact ⟨st, l, st1, List.mem_cons_self .., hl⟩
        · obtain ⟨s1, l1, s2, hmem, hline⟩ := ih hrest hr
          exact ⟨s1, l1, s2, List.mem_cons_of_mem _ hmem, hline⟩

theorem processLine_shape {qm : List (String × QosEntry)} {detail : Option DetailUsage}
    {st : LineState} {l : String} {stOut : LineState} {row : QosUsage}
    (h : processLine qm detail st l = .ok (stOut, row)) :
    ∃ name descr lim su r0 users,
      buildRow name descr lim su = .ok r0 ∧
      mkUsers detail name su = .ok users ∧
      row = { r0 with users := users } := by
  rw [processLine] at h
  obtain ⟨st1, _, h⟩ := exceptBind_ok_inv h
  obtain ⟨st2, _, h⟩ := exceptBind_ok_inv h
  obtain ⟨qn, _, h⟩ := exceptBind_ok_inv h
  obtain ⟨qe, _, h⟩ := exceptBind_ok_inv h
  obtain ⟨grp, _, h⟩ := exceptBind_ok_inv h
  obtain ⟨be, _, h⟩ := exceptBind_ok_inv h
  obtain ⟨r0, h7, h⟩ := exceptBind_ok_inv h
  obtain ⟨users, h8, h⟩ := exceptBind_ok_inv h
  simp only [Except.ok.injEq, Prod.mk.injEq] at h
  exact ⟨qn, qe.descr, be.limit, be.used, r0, users, h7, h8, h.2.symm⟩

theorem get_usage_some_inv {qosRows : List QosRawRow} {sacctRows : List SacctRow}
    {raw : String} {use_sacct : Bool} {rows : List QosUsage}
    (h : get_usage qosRows sacctRows raw use_sacct = .ok (some rows)) :
    ∃ qm detail ls usage,
      processAll qm detail ⟨none, none⟩ ls = .ok usage ∧
      rows = insSort (fun a b => decide (a.account ≤ b.account)) usage := by
  rw [get_usage] at h
  obtain ⟨qm, _, h⟩ := exceptBind_ok_inv h
  obtain ⟨detail, _, h⟩ := exceptBind_ok_inv h
  obtain ⟨idx, _, h⟩ := exceptBind_ok_inv h
  simp only [] at h
  split at h
  · exact absurd h (by simp)
  · obtain ⟨usage, h4, h⟩ := exceptBind_ok_inv h
    simp only [Except.ok.injEq, Option.some.injEq] at h
    exact ⟨qm, detail, _, usage, h4, h.symm⟩

/-! ## get_qos key characterization -/

theorem qosStep_keys (qos m : List (String × QosEntry)) (row : QosRawRow)
    (h : qosStep qos row = .ok m) (name : String) :
    (getAssoc m name).isSome ↔
      (row.Name = name ∧ row.Flags = SACCTMGR_QOS_NODECAY_FLAG) ∨
      (getAssoc qos name).isSome := by
  rw [qosStep] at h
  by_cases hf : row.Flags = SACCTMGR_QOS_NODECAY_FLAG
  · rw [if_pos hf] at h
    cases hp : parseTresPairs row.GrpTRESMins with
    | error e => simp [hp] at h
    | ok res =>
      simp only [hp, Except.ok.injEq] at h
      subst h
      by_cases hn : row.Name = name
      · subst hn
        rw [getAssoc_set_eq]
        simp [hf]
      · rw [getAssoc_set_ne _ _ _ _ (fun hh => hn hh.symm)]
        simp [hn]
  · rw [if_neg hf] at h
    simp only [Except.ok.injEq] at h
    subst h
    simp [hf]

theorem get_qos_keys_foldl (rows : List QosRawRow) (acc m : List (String × QosEntry))
    (h : foldlME qosStep acc rows = .ok m) (name : String) :
    (getAssoc m name).isSome ↔ (getAssoc acc name).isSome ∨
      ∃ row ∈ rows, row.Name = name ∧ row.Flags = SACCTMGR_QOS_NODECAY_FLAG := by
  induction rows generalizing acc with
  | nil =>
    rw [foldlME] at h
    simp only [Except.ok.injEq] at h
    subst h
    simp
  | cons row rest ih =>
    rw [foldlME] at h
    cases hs : qosStep acc row with
    | error e => rw [hs] at h; exact absurd h (by simp)
    | ok acc1 =>
      rw [hs] at h
      rw [ih acc1 h, qosStep_keys acc acc1 row hs name]
      simp only [List.mem_cons]
      constructor
      · rintro ((⟨hn, hf⟩ | hacc) | ⟨r, hr, hn, hf⟩)
        · exact Or.inr ⟨row, Or.inl rfl, hn, hf⟩
        · exact Or.inl hacc
        · exact Or.inr ⟨r, Or.inr hr, hn, hf⟩
      · rintro (hacc | ⟨r, (rfl | hr), hn, hf⟩)
        · exact Or.inl (Or.inr hacc)
        · exact Or.inl (Or.inl ⟨hn, hf⟩)
        · exact Or.inr ⟨r, hr, hn, hf⟩

/-! ## Field lookup helpers -/

theorem lookupField_error_val {x e : String} (h : lookupField x = .error e) :
    e = "UnknownField" := by
  rw [lookupField] at h
  cases hg : getAssoc FIELD_CONFIGS x with
  | none => simp only [hg, Except.error.injEq] at h; exact h.symm
  | some c => simp [hg] at h

theorem displayFields_absent {keys : List String} {k : String} (hk : k ∈ keys)
    (habs : getAssoc FIELD_CONFIGS k = none) :
    displayFields keys = .error "UnknownField" := by
  induction keys with
  | nil => exact absurd hk (by simp)
  | cons x xs ih =>
    rw [displayFields, mapME]
    rcases List.mem_cons.mp hk with rfl | hk1
    · simp only [lookupField, habs]
    · cases hx : lookupField x with
      | error e => rw [lookupField_error_val hx]
      | ok y =>
        have := ih hk1
        rw [displayFields] at this
        rw [this]

/-! ## Claim theorems -/

/-- Claim C7: for every collection of raw accounting records and every
permutation of it, running the per-(account, user) aggregation
(`Slurm.get_detail_usage`) on the original and on the shuffled collection
yields identical summed billing totals for every account (QoS). -/
theorem get_detail_usage_perm_invariant (rows1 rows2 : List SacctRow)
    (hperm : rows1.Perm rows2) (d1 d2 : DetailUsage)
    (h1 : get_detail_usage rows1 = .ok d1) (h2 : get_detail_usage rows2 = .ok d2)
    (q : String) : qosTotal d1 q = qosTotal d2 q := by
  rw [get_detail_usage] at h1 h2
  rw [qosTotal_foldlME rows1 [] d1 h1 q, qosTotal_foldlME rows2 [] d2 h2 q,
    (hperm.map (rowContribQ q)).sum_eq]

/-- Witness for C7: the two-job example (billing 300.4 and 100.1 under QoS
`C`) aggregated in both orders gives the same total for `C`. -/
theorem get_detail_usage_perm_invariant_witness :
    qosTotal [("C", [("alice", ⟨"alice", "C", 1502/5⟩), ("bob", ⟨"bob", "C", 1001/10⟩)])] "C"
      = qosTotal [("C", [("bob", ⟨"bob", "C", 1001/10⟩), ("alice", ⟨"alice", "C", 1502/5⟩)])] "C" :=
  get_detail_usage_perm_invariant
    [⟨"alice", "C", "C", "billing=2", "9012"⟩, ⟨"bob", "C", "C", "billing=2", "3003"⟩]
    [⟨"bob", "C", "C", "billing=2", "3003"⟩, ⟨"alice", "C", "C", "billing=2", "9012"⟩]
    (List.Perm.swap (⟨"bob", "C", "C", "billing=2", "3003"⟩ : SacctRow)
      (⟨"alice", "C", "C", "billing=2", "9012"⟩ : SacctRow) [])
    _ _ (by with_unfolding_all rfl) (by with_unfolding_all rfl) "C"

/-- Claim C9 counterexample: a QoS row whose `Flags` field carries `NoDecay`
together with another flag (`"NoDecay,DenyOnLimit"`) is *excluded* by
`Slurm.get_qos`, because the code compares the whole flags string for
equality with `'NoDecay'` instead of testing membership. -/
theorem get_qos_flag_carry_counterexample :
    SACCTMGR_QOS_NODECAY_FLAG ∈ pySplit "NoDecay,DenyOnLimit" ',' ∧
    get_qos [⟨"q1", "billing=5", "NoDecay,DenyOnLimit", "d"⟩] = .ok [] := by
  constructor
  · decide
  · with_unfolding_all rfl

/-- Claim C9 (amended): `Slurm.get_qos` returns exactly those QoS entries
whose `Flags` field is *equal* to the string `NoDecay`; an entry carrying
`NoDecay` together with any other flag is excluded (the older
`sbalance.py:query_qos` revision instead tests membership in the
comma-split flag list). -/
theorem get_qos_exact_flag_filter (rows : List QosRawRow)
    (m : List (String × QosEntry)) (h : get_qos rows = .ok m) (name : String) :
    (getAssoc m name).isSome ↔
      ∃ row ∈ rows, row.Name = name ∧ row.Flags = SACCTMGR_QOS_NODECAY_FLAG := by
  rw [get_qos] at h
  rw [get_qos_keys_foldl rows [] m h name]
  simp [getAssoc]

/-- Witness for the amended C9: a lone exactly-`NoDecay` row is in the
result. -/
theorem get_qos_exact_flag_filter_witness :
    (getAssoc [("q1", (⟨"q1", [("billing", TresVal.int 5)], "NoDecay", "d"⟩ : QosEntry))]
        "q1").isSome ↔
      ∃ row ∈ [(⟨"q1", "billing=5", "NoDecay", "d"⟩ : QosRawRow)],
        row.Name = "q1" ∧ row.Flags = SACCTMGR_QOS_NODECAY_FLAG :=
  get_qos_exact_flag_filter [⟨"q1", "billing=5", "NoDecay", "d"⟩]
    [("q1", ⟨"q1", [("billing", TresVal.int 5)], "NoDecay", "d"⟩)]
    (by with_unfolding_all rfl) "q1"

/-- Claim C8: every requested display-field key absent from the registry
makes the display operation fail with `UnknownField` before any output is
produced, and every key present in the registry resolves to its field
specification. -/
theorem display_fields_unknown_field (keys : List String) (k : String) :
    (k ∈ keys → getAssoc FIELD_CONFIGS k = none →
      displayFields keys = .error "UnknownField") ∧
    (∀ c, getAssoc FIELD_CONFIGS k = some c → lookupField k = .ok c) := by
  constructor
  · intro hk habs
    exact displayFields_absent hk habs
  · intro c hc
    rw [lookupField, hc]

/-- Witness for C8: requesting `["account", "nosuchfield"]` fails with
`UnknownField`; looking up `"account"` returns its registry entry. -/
theorem display_fields_unknown_field_witness :
    displayFields ["account", "nosuchfield"] = .error "UnknownField" ∧
    lookupField "account" = .ok ⟨"account", "Account", none, 10, "\x7b:<%d\x7d", "\x7b:<%d\x7d"⟩ :=
  ⟨(display_fields_unknown_field ["account", "nosuchfield"] "nosuchfield").1
      (by decide) (by decide),
   (display_fields_unknown_field ["account", "nosuchfield"] "account").2
      ⟨"account", "Account", none, 10, "\x7b:<%d\x7d", "\x7b:<%d\x7d"⟩ (by decide)⟩

/-- Claim C1 counterexample: a parsed QoS record whose allocation limit is
the numeric zero (`GrpTRESMins=billing=0(5)`, not the `N` sentinel) makes
`Slurm.get_usage` raise and propagate a `ZeroDivisionError` from
`percent_used = used / limit`; no sentinel is substituted. -/
theorem get_usage_zero_limit_counterexample :
    get_usage [⟨"acct", "billing=0", "NoDecay", "d"⟩] []
      "QOS Records\nQOS=acct(1) GrpTRESMins=billing=0(5) Account" false
      = .error "ZeroDivisionError" := by
  with_unfolding_all rfl

/-- Claim C1 (amended): the division guard of the aggregator covers only the
`'N'` (unlimited) sentinel.  For every record whose parsed billing limit is
the numeric zero, the per-record builder of `Slurm.get_usage` computes
`used / limit` by division and raises `ZeroDivisionError`, which propagates
out of the aggregator instead of producing a sentinel `percent_used`. -/
theorem buildRow_zero_limit_raises (name descr : String) (su : ℤ) :
    buildRow name descr (.num 0) su = .error "ZeroDivisionError" := by
  rw [buildRow, pyDiv]
  simp

/-- Claim C3: when the external `scontrol` source yields no parseable QoS
records (an empty section after the `QOS Records` header), `Slurm.get_usage`
takes the bare `return` and yields Python `None` (`.ok none`) — not the
empty list the spec promises, although it is also not an error. -/
theorem get_usage_no_records_returns_none :
    get_usage [] [] "QOS Records" false = .ok none := by
  with_unfolding_all rfl

/-- Claim C2: every `get_usage` output row whose allocation is the
`'unlimited'` sentinel has all of `su_remaining`, `percent_used`,
`percent_remaining`, `sh_remaining` and the per-partition `su_remaining_*`
fields equal to the sentinel `'-'`, and the `sh_alloc` / per-partition
`su_alloc_*` fields equal to the `'unlimited'` sentinel; none of these is a
number computed by division. -/
theorem get_usage_unlimited_sentinel (qosRows : List QosRawRow)
    (sacctRows : List SacctRow) (raw : String) (use_sacct : Bool)
    (rows : List QosUsage) (h : get_usage qosRows sacctRows raw use_sacct = .ok (some rows))
    (row : QosUsage) (hrow : row ∈ rows) (hunl : row.su_alloc = .str SU_UNLIMITED) :
    row.su_remaining = .str "-" ∧ row.percent_used = .str "-" ∧
    row.percent_remaining = .str "-" ∧ row.sh_alloc = .str SU_UNLIMITED ∧
    row.sh_remaining = .str "-" ∧
    ∀ p ∈ row.partitions, p.su_alloc = .str SU_UNLIMITED ∧ p.su_remaining = .str "-" := by
  obtain ⟨qm, detail, ls, usage, hall, hsort⟩ := get_usage_some_inv h
  subst hsort
  obtain ⟨st1, l, st2, _, hline⟩ := processAll_mem hall (mem_insSort.mp hrow)
  obtain ⟨name, descr, lim, su, r0, users, hbuild, hus, hrow2⟩ := processLine_shape hline
  subst hrow2
  rcases buildRow_ok_cases hbuild with ⟨_, rfl⟩ | ⟨L, _, _, rfl⟩
  · refine ⟨rfl, rfl, rfl, rfl, rfl, ?_⟩
    intro p hp
    simp only [unlimitedRow] at hp
    obtain ⟨c, _, rfl⟩ := List.mem_map.mp hp
    exact ⟨rfl, rfl⟩
  · exact absurd hunl (by simp [numericRow])

/-- Claim C4: in every `get_usage` output row in which both `percent_used`
and `percent_remaining` are numeric, they sum exactly to 1 (hence certainly
within the 1e-9 tolerance). -/
theorem get_usage_percent_sum_one (qosRows : List QosRawRow)
    (sacctRows : List SacctRow) (raw : String) (use_sacct : Bool)
    (rows : List QosUsage) (h : get_usage qosRows sacctRows raw use_sacct = .ok (some rows))
    (row : QosUsage) (hrow : row ∈ rows) (pu pr : ℚ)
    (hpu : row.percent_used = .float pu) (hpr : row.percent_remaining = .float pr) :
    pu + pr = 1 := by
  obtain ⟨qm, detail, ls, usage, hall, hsort⟩ := get_usage_some_inv h
  subst hsort
  obtain ⟨st1, l, st2, _, hline⟩ := processAll_mem hall (mem_insSort.mp hrow)
  obtain ⟨name, descr, lim, su, r0, users, hbuild, hus, hrow2⟩ := processLine_shape hline
  subst hrow2
  rcases buildRow_ok_cases hbuild with ⟨_, rfl⟩ | ⟨L, _, hL, rfl⟩
  · exact absurd hpu (by simp [unlimitedRow])
  · simp only [numericRow, PyVal.float.injEq] at hpu hpr
    subst hpu
    subst hpr
    ring

/-- Claim C10: in every `get_usage` output row whose allocation is the
`'unlimited'` sentinel, the used fields are still numbers computed by
division — `sh_used = su_used / SERVICE_HOUR_FACTOR` and one
`su_used_<p> = su_used / factor` per partition profile; the sentinel
suppresses only the allocation, remaining and percentage fields. -/
theorem get_usage_unlimited_used_numeric (qosRows : List QosRawRow)
    (sacctRows : List SacctRow) (raw : String) (use_sacct : Bool)
    (rows : List QosUsage) (h : get_usage qosRows sacctRows raw use_sacct = .ok (some rows))
    (row : QosUsage) (hrow : row ∈ rows) (hunl : row.su_alloc = .str SU_UNLIMITED) :
    row.sh_used = (row.su_used : ℚ) / SERVICE_HOUR_FACTOR ∧
    row.partitions = PARTITION_CONFIGS.map (fun p =>
      ⟨p.name, (row.su_used : ℚ) / p.factor, .str SU_UNLIMITED, .str "-"⟩) := by
  obtain ⟨qm, detail, ls, usage, hall, hsort⟩ := get_usage_some_inv h
  subst hsort
  obtain ⟨st1, l, st2, _, hline⟩ := processAll_mem hall (mem_insSort.mp hrow)
  obtain ⟨name, descr, lim, su, r0, users, hbuild, hus, hrow2⟩ := processLine_shape hline
  subst hrow2
  rcases buildRow_ok_cases hbuild with ⟨_, rfl⟩ | ⟨L, _, _, rfl⟩
  · exact ⟨rfl, rfl⟩
  · exact absurd hunl (by simp [numericRow])

/-- Claim C5: the `get_usage` output list is sorted non-decreasing by the
account key (case-sensitive lexicographic `String` order), and within each
row the per-user list is sorted non-increasing by the raw (pre-ceiling)
billing total. -/
theorem get_usage_output_sorted (qosRows : List QosRawRow)
    (sacctRows : List SacctRow) (raw : String) (use_sacct : Bool)
    (rows : List QosUsage)
    (h : get_usage qosRows sacctRows raw use_sacct = .ok (some rows)) :
    rows.Pairwise (fun a b => a.account ≤ b.account) ∧
    ∀ row ∈ rows, ∀ us, row.users = some us →
      us.Pairwise (fun a b => b.billing ≤ a.billing) := by
  obtain ⟨qm, detail, ls, usage, hall, hsort⟩ := get_usage_some_inv h
  subst hsort
  constructor
  · refine List.Pairwise.imp ?_ (pairwise_insSort ?_ ?_ usage)
    · intro a b hab
      simpa using hab
    · intro a b
      rcases le_total a.account b.account with hab | hab
      · exact Or.inl (by simpa using hab)
      · exact Or.inr (by simpa using hab)
    · intro a b c hab hbc
      simp only [decide_eq_true_eq] at hab hbc ⊢
      exact le_trans hab hbc
  · intro row hrow us hus
    obtain ⟨st1, l, st2, _, hline⟩ := processAll_mem hall (mem_insSort.mp hrow)
    obtain ⟨name, descr, lim, su, r0, users, hbuild, husers, hrow2⟩ := processLine_shape hline
    subst hrow2
    have husome : users = some us := hus
    rw [husome] at husers
    obtain ⟨hpair, _⟩ := mkUsers_some husers
    exact hpair.imp (by intro a b hab; simpa using hab)

/-- Claim C6: in per-user detail mode, every user row of a `get_usage`
output row has `su_used` equal to the ceiling of its accumulated billing
total, and `percent_used` equal to that `su_used` divided by the account's
total used (`su_used` of the row, which is then necessarily non-zero). -/
theorem get_usage_user_rows_ceiling_percent (qosRows : List QosRawRow)
    (sacctRows : List SacctRow) (raw : String) (use_sacct : Bool)
    (rows : List QosUsage)
    (h : get_usage qosRows sacctRows raw use_sacct = .ok (some rows))
    (row : QosUsage) (hrow : row ∈ rows) (us : List UserUsage)
    (hus : row.users = some us) (u : UserUsage) (hu : u ∈ us) :
    u.su_used = ⌈u.billing⌉ ∧ (row.su_used : ℚ) ≠ 0 ∧
    u.percent_used = (u.su_used : ℚ) / (row.su_used : ℚ) := by
  obtain ⟨qm, detail, ls, usage, hall, hsort⟩ := get_usage_some_inv h
  subst hsort
  obtain ⟨st1, l, st2, _, hline⟩ := processAll_mem hall (mem_insSort.mp hrow)
  obtain ⟨name, descr, lim, su, r0, users, hbuild, husers, hrow2⟩ := processLine_shape hline
  subst hrow2
  have husome : users = some us := hus
  rw [husome] at husers
  obtain ⟨_, hforall⟩ := mkUsers_some husers
  obtain ⟨h1, h2, h3, _⟩ := hforall u hu
  rcases buildRow_ok_cases hbuild with ⟨_, rfl⟩ | ⟨L, _, _, rfl⟩
  · exact ⟨h1, h2, h3⟩
  · exact ⟨h1, h2, h3⟩

/-- Witness for C2: the unlimited account `u1` end to end. -/
theorem get_usage_unlimited_sentinel_witness :
    wRowU.su_remaining = .str "-" ∧ wRowU.percent_used = .str "-" ∧
    wRowU.percent_remaining = .str "-" ∧ wRowU.sh_alloc = .str SU_UNLIMITED ∧
    wRowU.sh_remaining = .str "-" ∧
    ∀ p ∈ wRowU.partitions, p.su_alloc = .str SU_UNLIMITED ∧ p.su_remaining = .str "-" :=
  get_usage_unlimited_sentinel wQosU [] wRawU false [wRowU]
    (by with_unfolding_all rfl) wRowU (List.Mem.head _) rfl

/-- Witness for C4: account `a` with limit 200 and 20 used has
`percent_used + percent_remaining = 1`. -/
theorem get_usage_percent_sum_one_witness : (20/200 : ℚ) + 180/200 = 1 :=
  get_usage_percent_sum_one wQosS [] wRawS false [wRowA, wRowB]
    (by with_unfolding_all rfl) wRowA (List.Mem.head _) (20/200) (180/200) rfl rfl

/-- Witness for C10: the unlimited account `u1` still gets numeric used
fields. -/
theorem get_usage_unlimited_used_numeric_witness :
    wRowU.sh_used = (wRowU.su_used : ℚ) / SERVICE_HOUR_FACTOR ∧
    wRowU.partitions = PARTITION_CONFIGS.map (fun p =>
      ⟨p.name, (wRowU.su_used : ℚ) / p.factor, .str SU_UNLIMITED, .str "-"⟩) :=
  get_usage_unlimited_used_numeric wQosU [] wRawU false [wRowU]
    (by with_unfolding_all rfl) wRowU (List.Mem.head _) rfl

/-- Witness for C5: raw records listed as `b`, `a` come out sorted `a`, `b`. -/
theorem get_usage_output_sorted_witness :
    ([wRowA, wRowB].Pairwise (fun a b => a.account ≤ b.account)) ∧
    ∀ row ∈ [wRowA, wRowB], ∀ us, row.users = some us →
      us.Pairwise (fun a b => b.billing ≤ a.billing) :=
  get_usage_output_sorted wQosS [] wRawS false [wRowA, wRowB]
    (by with_unfolding_all rfl)

/-- Witness for C6: raw billings 300.4 and 100.1 give per-user `su_used`
301 (= ceiling of 300.4) and `percent_used = 301/401`. -/
theorem get_usage_user_rows_ceiling_percent_witness :
    wAlice.su_used = ⌈wAlice.billing⌉ ∧ ((wRowC.su_used : ℚ) ≠ 0) ∧
    wAlice.percent_used = (wAlice.su_used : ℚ) / (wRowC.su_used : ℚ) :=
  get_usage_user_rows_ceiling_percent wQosC wSacctC wRawC true [wRowC]
    (by with_unfolding_all rfl) wRowC (List.Mem.head _) [wAlice, wBob] rfl
    wAlice (List.Mem.head _)
